import Mathlib

/-!
Verification of the Master threshold-authorization gate and its client
helpers.  The chain-side Master executor is not part of the JavaScript
sources (only its integration tests call it through `nc.tx.master.execute`),
so it is modelled from the design document; the client-side helpers
(`compare_u8a_32`, the vote-map construction in `master_set_storage`, and
`Ed25519VerificationKey2018.from`) are embedded directly from the
JavaScript source.
-/

namespace Master

/-- Byte strings: identities, instructions and canonical messages are byte
arrays in the source; bytes are modelled as `Nat` (values < 256 in practice,
the bound is irrelevant to the claims). -/
abbrev Bytes := List Nat

/-- Modelled from the spec: a vote is an (Identity, Signature-over-Proposal)
pair (§3); the signature's scheme-tagged bytes are opaque here, so a
signature is an opaque `Nat`. -/
structure Vote where
  identity : Bytes
  sig : Nat
deriving DecidableEq

/-- Modelled from the spec: the reject taxonomy of §7 — `DuplicateVoter`,
`StaleRound`, `InsufficientQuorum`.  (Per-vote `SignatureInvalid` /
`UnknownIdentity` are non-fatal and never surface as a submission outcome.) -/
inductive RejectReason where
  | duplicateVoter
  | staleRound
  | insufficientQuorum
deriving DecidableEq

/-- Modelled from the spec: the outcome of `submit` (§6):
`{Executed} | {Rejected(reason)}`. -/
inductive Outcome where
  | executed
  | rejected (r : RejectReason)
deriving DecidableEq

/-- Modelled from the spec: the persisted/observable state (§6): the Round
value and the storage the opaque instruction mutates. -/
structure State where
  round : Nat
  storage : Bytes
deriving DecidableEq

/-- Modelled from the spec: the external collaborators of §6 plus the quorum
threshold Q of §4.4 — the identity registry `resolveKey`, the per-scheme
signature primitive `verify`, the Proposal Encoder `encode` (§4.1, a pure
deterministic function of instruction and round), and the underlying
engine's `apply`. -/
structure Config where
  quorum : Nat
  resolveKey : Bytes → Option Nat
  verify : Nat → Bytes → Nat → Bool
  encode : Bytes → Nat → Bytes
  apply : Bytes → Bytes → Bytes

/-- Modelled from the spec: §4.3 — resolve the identity's key; if no key is
registered the vote is discarded; otherwise the signature is checked against
the canonical message.  `true` exactly when the vote is accepted. -/
def acceptedVote (cfg : Config) (msg : Bytes) (v : Vote) : Bool :=
  match cfg.resolveKey v.identity with
  | none => false
  | some k => cfg.verify k msg v.sig

/-- Modelled from the spec: §4.4 — the number of votes in the set that
verify against a resolvable, matching key. -/
def acceptedCount (cfg : Config) (msg : Bytes) (votes : List Vote) : Nat :=
  votes.countP (fun v => acceptedVote cfg msg v)

/-- Modelled from the spec: the Executor transition of §4.6.
`submit(instruction, voteSet)` with the proposal's embedded round:
1. reject with `DuplicateVoter` if an identity appears twice;
2. build the canonical message from (instruction, R);
3. count the accepted votes;
4. reject with `StaleRound` if the embedded round ≠ R;
5. reject with `InsufficientQuorum` if accepted-count < Q;
6. else apply the instruction and set R ← R + 1. -/
def submit (cfg : Config) (s : State) (instr : Bytes) (round : Nat)
    (votes : List Vote) : Outcome × State :=
  if ¬ (votes.map Vote.identity).Nodup then
    (Outcome.rejected RejectReason.duplicateVoter, s)
  else
    let msg := cfg.encode instr s.round
    let accepted := acceptedCount cfg msg votes
    if round ≠ s.round then
      (Outcome.rejected RejectReason.staleRound, s)
    else if accepted < cfg.quorum then
      (Outcome.rejected RejectReason.insufficientQuorum, s)
    else
      (Outcome.executed, ⟨s.round + 1, cfg.apply instr s.storage⟩)

end Master

namespace Client

/-- Embedded from `src/tests/integration/master.test.js` (`compare_u8a_32`):
walk both 32-byte arrays from index 0; return -1 at the first index where
`a[i] < b[i]`, 1 at the first index where `b[i] < a[i]`, and 0 when the loop
finishes with no differing index.  The index loop over two equal-length
arrays is structural recursion on the two lists. -/
def compare_u8a_32 : List Nat → List Nat → Int
  | a :: as, b :: bs =>
    if a < b then -1
    else if b < a then 1
    else compare_u8a_32 as bs
  | _, _ => 0

/-- A DID value as the JavaScript test harness holds it: a `Uint8Array`
object, i.e. an object reference (modelled by a `Nat` tag, distinct per
allocated object) carrying 32 bytes of content.  JavaScript `Map` keys
compare object references, so equality on `DidObj` is componentwise. -/
abbrev DidObj := Nat × List Nat

/-- `JsMap.set m k v`, embedded from the behaviour of JavaScript
`Map.prototype.set`: if `k` is already a key its value is replaced in place
(the entry keeps its position), otherwise the new entry is appended in
insertion order.  An association list built only by `set` from the empty map
always has unique keys, which this recursion preserves. -/
def JsMap.set {K V : Type} [DecidableEq K] : List (K × V) → K → V → List (K × V)
  | [], k, v => [(k, v)]
  | p :: rest, k, v =>
    if p.1 = k then (k, v) :: rest
    else p :: JsMap.set rest k v

/-- `JsMap.get m k`, embedded from `Map.prototype.get`: the value of the
entry whose key equals `k`, if any. -/
def JsMap.get {K V : Type} [DecidableEq K] : List (K × V) → K → Option V
  | [], _ => none
  | p :: rest, k => if p.1 = k then some p.2 else JsMap.get rest k

/-- Embedded from `master_set_storage`:
`let dtk_sorted = [...did_to_key]; dtk_sorted.sort((a, b) => compare_u8a_32 ...)`.
The spread copies the array and `sort` (stable since ES2019) reorders the
copy by `compare_u8a_32` on the DID bytes.  Secret keys are opaque `Nat`s. -/
def dtk_sorted (did_to_key : List (DidObj × Nat)) : List (DidObj × Nat) :=
  did_to_key.mergeSort (fun x y => compare_u8a_32 x.1.2 y.1.2 ≤ 0)

/-- Embedded from `master_set_storage`: the caller's `did_to_key` array
after the call.  The function only reads it — the sort runs on the spread
copy `[...did_to_key]` — so the array is returned as it was. -/
def did_to_key_after (did_to_key : List (DidObj × Nat)) : List (DidObj × Nat) :=
  did_to_key

/-- Embedded from `master_set_storage`:
`let votes = new Map(); for (let [did, key] of dtk_sorted) votes.set(did, key.sign(msg))`.
`sign sk msg` is the opaque Sr25519 signature of `msg` under secret key `sk`. -/
def votesOf (sign : Nat → List Nat → Nat) (msg : List Nat)
    (did_to_key : List (DidObj × Nat)) : List (DidObj × Nat) :=
  (dtk_sorted did_to_key).foldl (fun m p => JsMap.set m p.1 (sign p.2 msg)) []

end Client

namespace Crypto

/-- Embedded from the constants used by `Ed25519VerificationKey2018.from`. -/
def Ed25519VerKeyName : String := "Ed25519VerificationKey2018"

/-- A verification method document as `from` inspects it: a `type` string
and an optional `publicKeyBase58` string (`none` models an absent field). -/
structure VerificationMethod where
  type : String
  publicKeyBase58 : Option String

/-- JavaScript truthiness of the `publicKeyBase58` field as tested by
`!verificationMethod.publicKeyBase58`: an absent field and the empty string
are both falsy. -/
def pkTruthy (vm : VerificationMethod) : Bool :=
  match vm.publicKeyBase58 with
  | none => false
  | some s => !s.isEmpty

/-- Embedded from `Ed25519VerificationKey2018.from`
(`src/src/utils/vc/crypto/EcdsaSepc256k1Signature2019.js`, second part):
throw when `type !== Ed25519VerKeyName && !publicKeyBase58`, otherwise
construct the key from `b58.decode(publicKeyBase58)`.  `decode` stands for
the external `bs58` decoder and is a parameter. -/
def ed25519From (decode : Option String → List Nat)
    (vm : VerificationMethod) : Except String (List Nat) :=
  if vm.type ≠ Ed25519VerKeyName ∧ pkTruthy vm = false then
    Except.error "verification method should have type Sr25519VerificationKey2020 and have the base58 public key"
  else
    Except.ok (decode vm.publicKeyBase58)

/-- `true` exactly on `Except.error`. -/
def isErr {ε α : Type} : Except ε α → Bool
  | Except.error _ => true
  | Except.ok _ => false

end Crypto

namespace Client

/-- On lists of equal length, `compare_u8a_32` returns 0 exactly on equal
lists, -1 exactly when the first lexicographically precedes the second, and
1 exactly when the second precedes the first. -/
theorem compare_u8a_32_trichotomy :
    ∀ a b : List Nat, a.length = b.length →
      (compare_u8a_32 a b = 0 ↔ a = b) ∧
      (compare_u8a_32 a b = -1 ↔ List.Lex (· < ·) a b) ∧
      (compare_u8a_32 a b = 1 ↔ List.Lex (· < ·) b a)
  | [], [], _ => by
    refine ⟨by simp [compare_u8a_32], ?_, ?_⟩ <;>
      simp only [compare_u8a_32] <;>
      exact ⟨fun h => absurd h (by decide), fun h => nomatch h⟩
  | [], b :: bs, h => by cases h
  | a :: as, [], h => by cases h
  | a :: as, b :: bs, h => by
    have hlen : as.length = bs.length := by simpa using h
    rcases Nat.lt_trichotomy a b with hab | hab | hab
    · have hne : a ≠ b := Nat.ne_of_lt hab
      refine ⟨?_, ?_, ?_⟩
      · simp only [compare_u8a_32, if_pos hab]
        exact ⟨fun h0 => absurd h0 (by decide),
          fun he => absurd (List.cons.inj he).1 hne⟩
      · simp only [compare_u8a_32, if_pos hab, true_iff]
        exact List.Lex.rel hab
      · simp only [compare_u8a_32, if_pos hab]
        constructor
        · intro h1; exact absurd h1 (by decide)
        · intro hlex
          cases hlex with
          | rel h' => exact absurd hab (Nat.lt_asymm h')
          | cons h' => exact absurd hab (Nat.lt_irrefl a)
    · subst hab
      have hlt : ¬ a < a := Nat.lt_irrefl a
      have ih := compare_u8a_32_trichotomy as bs hlen
      refine ⟨?_, ?_, ?_⟩
      · simp only [compare_u8a_32, if_neg hlt]
        rw [ih.1]
        exact ⟨fun he => he ▸ rfl, fun he => (List.cons.inj he).2⟩
      · simp only [compare_u8a_32, if_neg hlt]
        rw [ih.2.1]
        exact List.Lex.cons_iff.symm
      · simp only [compare_u8a_32, if_neg hlt]
        rw [ih.2.2]
        exact List.Lex.cons_iff.symm
    · have hne : a ≠ b := (Nat.ne_of_lt hab).symm
      have hlt : ¬ a < b := Nat.lt_asymm hab
      refine ⟨?_, ?_, ?_⟩
      · simp only [compare_u8a_32, if_neg hlt, if_pos hab]
        exact ⟨fun h0 => absurd h0 (by decide),
          fun he => absurd (List.cons.inj he).1 hne⟩
      · simp only [compare_u8a_32, if_neg hlt, if_pos hab]
        constructor
        · intro h1; exact absurd h1 (by decide)
        · intro hlex
          cases hlex with
          | rel h' => exact absurd hab (Nat.lt_asymm h')
          | cons h' => exact absurd hab (Nat.lt_irrefl a)
      · simp only [compare_u8a_32, if_neg hlt, if_pos hab, true_iff]
        exact List.Lex.rel hab

end Client

/-- C8: on 32-byte arrays, `compare_u8a_32` implements unsigned byte-wise
lexicographic order: it returns -1 when `a` precedes `b`, 1 when `b`
precedes `a`, and 0 exactly when `a = b` byte for byte — a total order
consistent with equality. -/
theorem compare_u8a_32_lex_order (a b : List Nat)
    (ha : a.length = 32) (hb : b.length = 32) :
    (Client.compare_u8a_32 a b = 0 ↔ a = b) ∧
    (Client.compare_u8a_32 a b = -1 ↔ List.Lex (· < ·) a b) ∧
    (Client.compare_u8a_32 a b = 1 ↔ List.Lex (· < ·) b a) :=
  Client.compare_u8a_32_trichotomy a b (ha.trans hb.symm)

/-- A concrete configuration used by the witnesses: quorum 2, a registry
mapping identity `[i]` to key `i` for i ∈ {1, 2, 3} and nothing else, a
scheme whose signature is valid exactly when it equals the key, a
concatenating encoder, and an engine that stores the instruction. -/
def wcfg : Master.Config where
  quorum := 2
  resolveKey := fun d =>
    if d = [1] then some 1 else if d = [2] then some 2
    else if d = [3] then some 3 else none
  verify := fun k _ sg => decide (sg = k)
  encode := fun instr r => instr ++ [r]
  apply := fun instr _ => instr

/-- C1: for a submission bound to the current round with no duplicate
identities, `submit` succeeds — applying the instruction exactly once and
advancing the round by exactly 1 — if and only if the accepted-count
reaches the quorum Q; the successful result does not depend on how far the
count exceeds Q. -/
theorem submit_succeeds_iff_quorum (cfg : Master.Config) (s : Master.State)
    (instr : Master.Bytes) (round : Nat) (votes : List Master.Vote)
    (hr : round = s.round)
    (hnd : (votes.map Master.Vote.identity).Nodup) :
    Master.submit cfg s instr round votes
        = (Master.Outcome.executed, ⟨s.round + 1, cfg.apply instr s.storage⟩)
      ↔ cfg.quorum ≤ Master.acceptedCount cfg (cfg.encode instr s.round) votes := by
  subst hr
  simp only [Master.submit]
  rw [if_neg (not_not_intro hnd), if_neg (fun hh => hh rfl)]
  by_cases hq : Master.acceptedCount cfg (cfg.encode instr s.round) votes < cfg.quorum
  · rw [if_pos hq]
    constructor
    · intro he
      simp at he
    · intro hge
      exact absurd hge (Nat.not_le.mpr hq)
  · rw [if_neg hq]
    exact iff_of_true rfl (Nat.not_lt.mp hq)

/-- C1 witness: two valid votes out of quorum 2 at the current round. -/
theorem submit_succeeds_iff_quorum_witness :
    Master.submit wcfg ⟨0, []⟩ [7] 0 [⟨[1], 1⟩, ⟨[2], 2⟩]
        = (Master.Outcome.executed, ⟨1, wcfg.apply [7] []⟩)
      ↔ wcfg.quorum
          ≤ Master.acceptedCount wcfg (wcfg.encode [7] 0) [⟨[1], 1⟩, ⟨[2], 2⟩] :=
  submit_succeeds_iff_quorum wcfg ⟨0, []⟩ [7] 0 [⟨[1], 1⟩, ⟨[2], 2⟩] rfl (by decide)

/-- C2: a vote whose identity resolves to no key, or whose signature fails
to verify against the resolved key, is discarded: it is not accepted, and
the accepted-count of any batch containing it equals the accepted-count of
the batch without it — the remaining votes are still evaluated. -/
theorem invalid_vote_discarded (cfg : Master.Config) (msg : Master.Bytes)
    (v : Master.Vote) (l₁ l₂ : List Master.Vote)
    (h : cfg.resolveKey v.identity = none ∨
         ∃ k, cfg.resolveKey v.identity = some k ∧ cfg.verify k msg v.sig = false) :
    Master.acceptedVote cfg msg v = false ∧
    Master.acceptedCount cfg msg (l₁ ++ v :: l₂)
      = Master.acceptedCount cfg msg (l₁ ++ l₂) := by
  have hv : Master.acceptedVote cfg msg v = false := by
    unfold Master.acceptedVote
    rcases h with h | ⟨k, hk, hvf⟩
    · rw [h]
    · rw [hk]
      exact hvf
  refine ⟨hv, ?_⟩
  simp [Master.acceptedCount, List.countP_append, List.countP_cons, hv]

/-- C2 witness: an unregistered identity `[9]` amid two valid votes. -/
theorem invalid_vote_discarded_witness :
    Master.acceptedVote wcfg [9] ⟨[9], 1⟩ = false ∧
    Master.acceptedCount wcfg [9] [⟨[1], 1⟩, ⟨[9], 1⟩, ⟨[2], 2⟩]
      = Master.acceptedCount wcfg [9] [⟨[1], 1⟩, ⟨[2], 2⟩] :=
  invalid_vote_discarded wcfg [9] ⟨[9], 1⟩ [⟨[1], 1⟩] [⟨[2], 2⟩] (Or.inl (by decide))

/-- C3 counterexample: a vote set with a duplicate identity and
accepted-count 1 < Q = 2 is rejected with `DuplicateVoter`, not with
`InsufficientQuorum` as the claim requires of every below-quorum set. -/
theorem submit_below_quorum_counterexample :
    Master.acceptedCount wcfg (wcfg.encode [7] 0) [⟨[1], 0⟩, ⟨[1], 1⟩]
        < wcfg.quorum ∧
    Master.submit wcfg ⟨0, []⟩ [7] 0 [⟨[1], 0⟩, ⟨[1], 1⟩]
      = (Master.Outcome.rejected Master.RejectReason.duplicateVoter, ⟨0, []⟩) ∧
    Master.Outcome.rejected Master.RejectReason.duplicateVoter
      ≠ Master.Outcome.rejected Master.RejectReason.insufficientQuorum := by
  decide

/-- C3 (amended): for a submission bound to the current round with no
duplicate identities whose accepted-count is strictly below Q (the empty
set included), `submit` is rejected with `InsufficientQuorum` and the state
— round and storage — is returned exactly as it was. -/
theorem submit_below_quorum_rejected (cfg : Master.Config) (s : Master.State)
    (instr : Master.Bytes) (round : Nat) (votes : List Master.Vote)
    (hr : round = s.round)
    (hnd : (votes.map Master.Vote.identity).Nodup)
    (hq : Master.acceptedCount cfg (cfg.encode instr s.round) votes < cfg.quorum) :
    Master.submit cfg s instr round votes
      = (Master.Outcome.rejected Master.RejectReason.insufficientQuorum, s) := by
  subst hr
  simp only [Master.submit]
  rw [if_neg (not_not_intro hnd), if_neg (fun hh => hh rfl), if_pos hq]

/-- C3 witness: a single valid vote against quorum 2, and the empty set. -/
theorem submit_below_quorum_rejected_witness :
    Master.submit wcfg ⟨0, []⟩ [7] 0 [⟨[1], 1⟩]
      = (Master.Outcome.rejected Master.RejectReason.insufficientQuorum, ⟨0, []⟩) ∧
    Master.submit wcfg ⟨0, []⟩ [7] 0 []
      = (Master.Outcome.rejected Master.RejectReason.insufficientQuorum, ⟨0, []⟩) :=
  ⟨submit_below_quorum_rejected wcfg ⟨0, []⟩ [7] 0 [⟨[1], 1⟩] rfl (by decide) (by decide),
   submit_below_quorum_rejected wcfg ⟨0, []⟩ [7] 0 [] rfl (by decide) (by decide)⟩

/-- C4: `submit` is invariant under permutation of the vote set — a
permuted sequence produces the same outcome and the same final state as
any other ordering of the same (identity, signature) pairs. -/
theorem submit_perm_invariant (cfg : Master.Config) (s : Master.State)
    (instr : Master.Bytes) (round : Nat) (votes votes' : List Master.Vote)
    (h : votes.Perm votes') :
    Master.submit cfg s instr round votes
      = Master.submit cfg s instr round votes' := by
  have hcount : Master.acceptedCount cfg (cfg.encode instr s.round) votes
      = Master.acceptedCount cfg (cfg.encode instr s.round) votes' :=
    h.countP_eq _
  have hmap : (votes.map Master.Vote.identity).Perm (votes'.map Master.Vote.identity) :=
    h.map _
  simp only [Master.submit, hcount]
  by_cases hnd : (votes.map Master.Vote.identity).Nodup
  · rw [if_neg (not_not_intro hnd), if_neg (not_not_intro (hmap.nodup_iff.mp hnd))]
  · rw [if_pos hnd, if_pos (fun hh => hnd (hmap.nodup_iff.mpr hh))]

/-- C4 witness: reverse identity order versus sorted order, both executing
(the reversed set is the test 'Root call with votes not sorted lexically'). -/
theorem submit_perm_invariant_witness :
    Master.submit wcfg ⟨0, []⟩ [7] 0 [⟨[2], 2⟩, ⟨[1], 1⟩]
      = Master.submit wcfg ⟨0, []⟩ [7] 0 [⟨[1], 1⟩, ⟨[2], 2⟩] :=
  submit_perm_invariant wcfg ⟨0, []⟩ [7] 0 _ _ (List.Perm.swap _ _ _)

/-- C5: the round advances by exactly one — together with a single
application of the instruction — on every `submit` that reports success,
and the whole state (round included) is unchanged by every `submit` that
reports a rejection.  `submit` is the only operation of the model that
touches the state. -/
theorem submit_round_advances_iff_success (cfg : Master.Config)
    (s : Master.State) (instr : Master.Bytes) (round : Nat)
    (votes : List Master.Vote) :
    ((Master.submit cfg s instr round votes).1 = Master.Outcome.executed →
       (Master.submit cfg s instr round votes).2
         = ⟨s.round + 1, cfg.apply instr s.storage⟩) ∧
    ((Master.submit cfg s instr round votes).1 ≠ Master.Outcome.executed →
       (Master.submit cfg s instr round votes).2 = s) := by
  simp only [Master.submit]
  split_ifs with h1 h2 h3 <;>
    refine ⟨fun hox => ?_, fun hox => ?_⟩ <;>
      simp_all

/-- C5 witness: a successful call advances the round to 1 and stores the
instruction; the empty-vote rejection leaves the state untouched. -/
theorem submit_round_advances_iff_success_witness :
    (Master.submit wcfg ⟨0, []⟩ [7] 0 [⟨[1], 1⟩, ⟨[2], 2⟩]).2
      = (⟨1, wcfg.apply [7] []⟩ : Master.State) ∧
    (Master.submit wcfg ⟨0, []⟩ [7] 0 []).2 = (⟨0, []⟩ : Master.State) :=
  ⟨(submit_round_advances_iff_success wcfg ⟨0, []⟩ [7] 0 [⟨[1], 1⟩, ⟨[2], 2⟩]).1
      (by decide),
   (submit_round_advances_iff_success wcfg ⟨0, []⟩ [7] 0 []).2 (by decide)⟩

/-- C6 counterexample: a stale-round submission whose vote set has a
duplicate identity is rejected with `DuplicateVoter`, not with `StaleRound`
as the claim requires of every round-mismatched submission. -/
theorem submit_stale_round_counterexample :
    (5 : Nat) ≠ (⟨0, []⟩ : Master.State).round ∧
    Master.submit wcfg ⟨0, []⟩ [7] 5 [⟨[1], 0⟩, ⟨[1], 1⟩]
      = (Master.Outcome.rejected Master.RejectReason.duplicateVoter, ⟨0, []⟩) ∧
    Master.Outcome.rejected Master.RejectReason.duplicateVoter
      ≠ Master.Outcome.rejected Master.RejectReason.staleRound := by
  decide

/-- C6 (amended): a submission without duplicate identities whose embedded
round differs from the sequencer's value is rejected with `StaleRound` and
changes no state, whatever its accepted-count; and after any successful
execution, resubmitting the identical vote set bound to the old round is
rejected with `StaleRound`, so the instruction is never applied twice. -/
theorem submit_stale_round_rejected (cfg : Master.Config) (s : Master.State)
    (instr : Master.Bytes) (round : Nat) (votes : List Master.Vote) :
    ((votes.map Master.Vote.identity).Nodup → round ≠ s.round →
       Master.submit cfg s instr round votes
         = (Master.Outcome.rejected Master.RejectReason.staleRound, s)) ∧
    (∀ s₂, Master.submit cfg s instr s.round votes = (Master.Outcome.executed, s₂) →
       Master.submit cfg s₂ instr s.round votes
         = (Master.Outcome.rejected Master.RejectReason.staleRound, s₂)) := by
  constructor
  · intro hnd hr
    simp only [Master.submit]
    rw [if_neg (not_not_intro hnd), if_pos hr]
  · intro s₂ h
    simp only [Master.submit] at h
    by_cases hnd : (votes.map Master.Vote.identity).Nodup
    · rw [if_neg (not_not_intro hnd), if_neg (fun hh => hh rfl)] at h
      by_cases hq : Master.acceptedCount cfg (cfg.encode instr s.round) votes
          < cfg.quorum
      · rw [if_pos hq] at h
        simp at h
      · rw [if_neg hq] at h
        obtain ⟨-, hs⟩ := Prod.mk.inj h
        subst hs
        simp only [Master.submit]
        rw [if_neg (not_not_intro hnd), if_pos (Nat.succ_ne_self s.round).symm]
    · rw [if_pos hnd] at h
      simp at h

/-- C6 witness: a stale submission with quorum-satisfying votes rejects
with `StaleRound`; and after the successful call that produced state
⟨1, [7]⟩, replaying the same votes bound to round 0 rejects likewise. -/
theorem submit_stale_round_rejected_witness :
    Master.submit wcfg ⟨0, []⟩ [7] 5 [⟨[1], 1⟩, ⟨[2], 2⟩]
      = (Master.Outcome.rejected Master.RejectReason.staleRound, ⟨0, []⟩) ∧
    Master.submit wcfg ⟨1, [7]⟩ [7] 0 [⟨[1], 1⟩, ⟨[2], 2⟩]
      = (Master.Outcome.rejected Master.RejectReason.staleRound, ⟨1, [7]⟩) :=
  ⟨(submit_stale_round_rejected wcfg ⟨0, []⟩ [7] 5 [⟨[1], 1⟩, ⟨[2], 2⟩]).1
      (by decide) (by decide),
   (submit_stale_round_rejected wcfg ⟨0, []⟩ [7] 0 [⟨[1], 1⟩, ⟨[2], 2⟩]).2
      ⟨1, [7]⟩ (by decide)⟩

/-- C7: a vote set in which some identity appears twice is rejected whole
with `DuplicateVoter` and no state change, for every configuration — in
particular for every `verify` and `resolveKey`, so no signature
verification influences the outcome — and `DuplicateVoter` is distinct
from the `InsufficientQuorum` and `StaleRound` rejections. -/
theorem submit_duplicate_voter (cfg : Master.Config) (s : Master.State)
    (instr : Master.Bytes) (round : Nat) (votes : List Master.Vote)
    (h : ¬ (votes.map Master.Vote.identity).Nodup) :
    Master.submit cfg s instr round votes
      = (Master.Outcome.rejected Master.RejectReason.duplicateVoter, s) ∧
    Master.RejectReason.duplicateVoter ≠ Master.RejectReason.insufficientQuorum ∧
    Master.RejectReason.duplicateVoter ≠ Master.RejectReason.staleRound := by
  refine ⟨?_, by decide, by decide⟩
  simp only [Master.submit]
  rw [if_pos h]

/-- C7 witness: identity `[1]` voting twice. -/
theorem submit_duplicate_voter_witness :
    Master.submit wcfg ⟨0, []⟩ [7] 0 [⟨[1], 1⟩, ⟨[1], 2⟩]
      = (Master.Outcome.rejected Master.RejectReason.duplicateVoter, ⟨0, []⟩) ∧
    Master.RejectReason.duplicateVoter ≠ Master.RejectReason.insufficientQuorum ∧
    Master.RejectReason.duplicateVoter ≠ Master.RejectReason.staleRound :=
  submit_duplicate_voter wcfg ⟨0, []⟩ [7] 0 [⟨[1], 1⟩, ⟨[1], 2⟩] (by decide)

/-- C8 witness: the trichotomy evaluated on two concrete 32-byte arrays. -/
theorem compare_u8a_32_lex_order_witness :
    (Client.compare_u8a_32
        [0,0,0,0,0,0,0,0,0,0,0,0,0,0,0,0,0,0,0,0,0,0,0,0,0,0,0,0,0,0,0,1]
        [0,0,0,0,0,0,0,0,0,0,0,0,0,0,0,0,0,0,0,0,0,0,0,0,0,0,0,0,0,0,0,2] = -1 ↔
      List.Lex (· < ·)
        [0,0,0,0,0,0,0,0,0,0,0,0,0,0,0,0,0,0,0,0,0,0,0,0,0,0,0,0,0,0,0,1]
        [0,0,0,0,0,0,0,0,0,0,0,0,0,0,0,0,0,0,0,0,0,0,0,0,0,0,0,0,0,0,0,2]) :=
  (compare_u8a_32_lex_order _ _ (by decide) (by decide)).2.1

namespace Client

/-- Looking up the key just set returns the value just set. -/
theorem JsMap.get_set_self {K V : Type} [DecidableEq K]
    (m : List (K × V)) (k : K) (v : V) :
    JsMap.get (JsMap.set m k v) k = some v := by
  induction m with
  | nil => simp [JsMap.set, JsMap.get]
  | cons p rest ih =>
    by_cases hp : p.1 = k
    · simp [JsMap.set, JsMap.get, hp]
    · simp [JsMap.set, JsMap.get, hp, ih]

/-- Setting one key leaves lookups of every other key unchanged. -/
theorem JsMap.get_set_ne {K V : Type} [DecidableEq K]
    (m : List (K × V)) (k k' : K) (v : V) (h : k' ≠ k) :
    JsMap.get (JsMap.set m k' v) k = JsMap.get m k := by
  induction m with
  | nil => simp [JsMap.set, JsMap.get, h]
  | cons p rest ih =>
    by_cases hp : p.1 = k'
    · simp [JsMap.set, JsMap.get, hp, h]
    · simp only [JsMap.set, if_neg hp, JsMap.get, ih]

/-- A key of `set m k v` is `k` or a key of `m`. -/
theorem JsMap.mem_keys_set {K V : Type} [DecidableEq K]
    (m : List (K × V)) (k : K) (v : V) (x : K)
    (hx : x ∈ (JsMap.set m k v).map Prod.fst) :
    x = k ∨ x ∈ m.map Prod.fst := by
  induction m with
  | nil =>
    simp [JsMap.set] at hx
    exact Or.inl hx
  | cons p rest ih =>
    by_cases hp : p.1 = k
    · simp only [JsMap.set, if_pos hp, List.map_cons, List.mem_cons] at hx
      rcases hx with hx | hx
      · exact Or.inl hx
      · exact Or.inr (by simp [hx])
    · simp only [JsMap.set, if_neg hp, List.map_cons, List.mem_cons] at hx
      rcases hx with hx | hx
      · exact Or.inr (by simp [hx])
      · rcases ih hx with h' | h'
        · exact Or.inl h'
        · exact Or.inr (by simp [h'])

/-- `set` preserves uniqueness of keys. -/
theorem JsMap.nodup_keys_set {K V : Type} [DecidableEq K]
    (m : List (K × V)) (k : K) (v : V)
    (h : (m.map Prod.fst).Nodup) :
    ((JsMap.set m k v).map Prod.fst).Nodup := by
  induction m with
  | nil => simp [JsMap.set]
  | cons p rest ih =>
    simp only [List.map_cons, List.nodup_cons] at h
    by_cases hp : p.1 = k
    · simp only [JsMap.set, if_pos hp, List.map_cons, List.nodup_cons]
      exact ⟨hp ▸ h.1, h.2⟩
    · simp only [JsMap.set, if_neg hp, List.map_cons, List.nodup_cons]
      refine ⟨fun hx => ?_, ih h.2⟩
      rcases JsMap.mem_keys_set rest k v p.1 hx with h' | h'
      · exact hp h'
      · exact h.1 h'

/-- Every map built by folding `set` over a list of entries keeps its keys
unique. -/
theorem JsMap.nodup_keys_foldl_set {K A V : Type} [DecidableEq K]
    (f : K × A → V) :
    ∀ (l : List (K × A)) (m : List (K × V)),
      (m.map Prod.fst).Nodup →
      ((l.foldl (fun m p => JsMap.set m p.1 (f p)) m).map Prod.fst).Nodup
  | [], _, h => h
  | p :: rest, m, h =>
    JsMap.nodup_keys_foldl_set f rest (JsMap.set m p.1 (f p))
      (JsMap.nodup_keys_set m p.1 (f p) h)

/-- The value a fold of `set` leaves at key `k` is the value of the last
entry for `k` in the folded list, or the starting map's value when the
list has no entry for `k`. -/
theorem JsMap.get_foldl_set {K A V : Type} [DecidableEq K] (f : K × A → V) :
    ∀ (l : List (K × A)) (m : List (K × V)) (k : K),
      JsMap.get (l.foldl (fun m p => JsMap.set m p.1 (f p)) m) k
        = match (l.filter (fun p => decide (p.1 = k))).getLast? with
          | some q => some (f q)
          | none => JsMap.get m k
  | [], m, k => by simp
  | p :: rest, m, k => by
    have ih := JsMap.get_foldl_set f rest (JsMap.set m p.1 (f p)) k
    by_cases hp : p.1 = k
    · rw [List.foldl_cons, ih]
      have hfil : (p :: rest).filter (fun p => decide (p.1 = k))
          = p :: rest.filter (fun p => decide (p.1 = k)) := by
        simp [List.filter_cons, hp]
      rw [hfil]
      cases hrest : rest.filter (fun p => decide (p.1 = k)) with
      | nil =>
        subst hp
        simp [JsMap.get_set_self]
      | cons q qs =>
        simp [List.getLast?_cons]
    · rw [List.foldl_cons, ih]
      have hfil : (p :: rest).filter (fun p => decide (p.1 = k))
          = rest.filter (fun p => decide (p.1 = k)) := by
        simp [List.filter_cons, hp]
      rw [hfil]
      cases hrest : rest.filter (fun p => decide (p.1 = k)) with
      | nil => simp [JsMap.get_set_ne m k p.1 (f p) hp]
      | cons q qs => simp [List.getLast?_cons]

end Client

/-- C9: the votes map that `master_set_storage` builds has at most one
entry per distinct identity object (its keys are unique, so the helper
never produces a batch with a duplicate identity key); when an identity
appears several times, the value submitted for it is the signature of the
last inserted occurrence; and the caller's `did_to_key` array is left
exactly as it was, since only the spread copy is sorted. -/
theorem master_set_storage_votes_wellformed (sign : Nat → List Nat → Nat)
    (msg : List Nat) (did_to_key : List (Client.DidObj × Nat)) :
    ((Client.votesOf sign msg did_to_key).map Prod.fst).Nodup ∧
    (∀ d : Client.DidObj,
      Client.JsMap.get (Client.votesOf sign msg did_to_key) d
        = match ((Client.dtk_sorted did_to_key).filter
              (fun p => decide (p.1 = d))).getLast? with
          | some q => some (sign q.2 msg)
          | none => none) ∧
    Client.did_to_key_after did_to_key = did_to_key := by
  refine ⟨?_, ?_, rfl⟩
  · exact Client.JsMap.nodup_keys_foldl_set _ (Client.dtk_sorted did_to_key) []
      (by simp)
  · intro d
    rw [Client.votesOf,
      Client.JsMap.get_foldl_set (fun p => sign p.2 msg)
        (Client.dtk_sorted did_to_key) [] d]
    cases ((Client.dtk_sorted did_to_key).filter
        (fun p => decide (p.1 = d))).getLast? with
    | none => rfl
    | some q => rfl

/-- C10: `Ed25519VerificationKey2018.from` throws exactly when the
verification method's type differs from the Ed25519 key name and its
`publicKeyBase58` field is absent (falsy); whenever a `publicKeyBase58`
value is present, `from` constructs a key from it even when the declared
type is not `Ed25519VerificationKey2018`. -/
theorem ed25519From_guard (decode : Option String → List Nat)
    (vm : Crypto.VerificationMethod) :
    (Crypto.isErr (Crypto.ed25519From decode vm) = true
       ↔ (vm.type ≠ Crypto.Ed25519VerKeyName ∧ Crypto.pkTruthy vm = false)) ∧
    (Crypto.pkTruthy vm = true →
       Crypto.ed25519From decode vm = Except.ok (decode vm.publicKeyBase58)) := by
  constructor
  · by_cases h : vm.type ≠ Crypto.Ed25519VerKeyName ∧ Crypto.pkTruthy vm = false
    · rw [Crypto.ed25519From, if_pos h]
      simp [Crypto.isErr, h]
    · rw [Crypto.ed25519From, if_neg h]
      simp [Crypto.isErr, h]
  · intro hpk
    rw [Crypto.ed25519From, if_neg]
    intro hcontra
    rw [hpk] at hcontra
    exact absurd hcontra.2 (by decide)

/-- C10 witness: a verification method of a non-Ed25519 type that carries a
base58 public key is accepted and the key constructed from that value. -/
theorem ed25519From_guard_witness :
    Crypto.ed25519From (fun _ => [1, 2, 3])
        ⟨"Sr25519VerificationKey2020", some "abc"⟩
      = Except.ok [1, 2, 3] :=
  (ed25519From_guard (fun _ => [1, 2, 3])
      ⟨"Sr25519VerificationKey2020", some "abc"⟩).2 (by decide)
